import Mathlib

/-!
Verification of the `ethereum_hashing` crate (src/lib.rs): a SHA256 wrapper
with runtime implementation selection and a cached zero-hash table.

Bytes are modelled as `Nat` values below 256, byte sequences as `List Nat`,
and 32-bit words as `Nat` with explicit reduction modulo `2^32`.

The crate delegates the SHA256 compression itself to the external `sha2`
crate through `src/sha2_impl.rs` (not present under src/); that collaborator
is modelled from the spec contract: `update` appends bytes to the pending
message, `finalize` returns the FIPS 180-4 SHA256 digest of the message.
The SHA256 function below is a direct executable rendering of FIPS 180-4.
-/

/-- Reduction of a natural number to a 32-bit word. -/
def w32 (x : Nat) : Nat := x % 4294967296

/-- Right rotation of a 32-bit word by `n` bits. -/
def rotr (n x : Nat) : Nat := w32 ((x >>> n) ||| (x <<< (32 - n)))

/-- FIPS 180-4 Σ₀ function. -/
def bigSigma0 (x : Nat) : Nat := (rotr 2 x) ^^^ (rotr 13 x) ^^^ (rotr 22 x)

/-- FIPS 180-4 Σ₁ function. -/
def bigSigma1 (x : Nat) : Nat := (rotr 6 x) ^^^ (rotr 11 x) ^^^ (rotr 25 x)

/-- FIPS 180-4 σ₀ function. -/
def smallSigma0 (x : Nat) : Nat := (rotr 7 x) ^^^ (rotr 18 x) ^^^ (x >>> 3)

/-- FIPS 180-4 σ₁ function. -/
def smallSigma1 (x : Nat) : Nat := (rotr 17 x) ^^^ (rotr 19 x) ^^^ (x >>> 10)

/-- FIPS 180-4 Ch function (bitwise complement written as xor with `2^32 - 1`). -/
def ch (x y z : Nat) : Nat := (x &&& y) ^^^ ((x ^^^ 4294967295) &&& z)

/-- FIPS 180-4 Maj function. -/
def maj (x y z : Nat) : Nat := (x &&& y) ^^^ (x &&& z) ^^^ (y &&& z)

/-- The 64 SHA256 round constants, written in decimal. -/
def sha256K : List Nat :=
  [1116352408, 1899447441, 3049323471, 3921009573, 961987163,
   1508970993, 2453635748, 2870763221, 3624381080, 310598401,
   607225278, 1426881987, 1925078388, 2162078206, 2614888103,
   3248222580, 3835390401, 4022224774, 264347078, 604807628,
   770255983, 1249150122, 1555081692, 1996064986, 2554220882,
   2821834349, 2952996808, 3210313671, 3336571891, 3584528711,
   113926993, 338241895, 666307205, 773529912, 1294757372,
   1396182291, 1695183700, 1986661051, 2177026350, 2456956037,
   2730485921, 2820302411, 3259730800, 3345764771, 3516065817,
   3600352804, 4094571909, 275423344, 430227734, 506948616,
   659060556, 883997877, 958139571, 1322822218, 1537002063,
   1747873779, 1955562222, 2024104815, 2227730452, 2361852424,
   2428436474, 2756734187, 3204031479, 3329325298]

/-- The SHA256 initial hash value, written in decimal. -/
def sha256InitH : List Nat :=
  [1779033703, 3144134277, 1013904242, 2773480762,
   1359893119, 2600822924, 528734635, 1541459225]

/-- Big-endian encoding of `x` into `n` bytes. -/
def toBytesBE (n x : Nat) : List Nat :=
  (List.range n).map (fun i => (x >>> (8 * (n - 1 - i))) % 256)

/-- Group bytes into 32-bit words, big-endian; a trailing group of fewer
than four bytes is dropped (never happens on padded input). -/
def bytesToWordsBE : List Nat → List Nat
  | a :: b :: c :: d :: rest => (((a * 256 + b) * 256 + c) * 256 + d) :: bytesToWordsBE rest
  | _ => []

/-- FIPS 180-4 padding: append `0x80`, zero bytes, then the bit length on
eight bytes, so that the total length is a multiple of 64 bytes. -/
def padMessage (msg : List Nat) : List Nat :=
  msg ++ [128] ++ List.replicate ((119 - msg.length % 64) % 64) 0
      ++ toBytesBE 8 (8 * msg.length)

/-- Extend a 16-word block to the 64-word SHA256 message schedule. -/
def extendSchedule (block : List Nat) : List Nat :=
  (List.range 48).foldl
    (fun w _ =>
      let n := w.length
      w ++ [w32 (smallSigma1 (w.getD (n - 2) 0) + w.getD (n - 7) 0
                 + smallSigma0 (w.getD (n - 15) 0) + w.getD (n - 16) 0)])
    block

/-- One SHA256 round on the working variables `[a,b,c,d,e,f,g,h]`. -/
def sha256Round (st : List Nat) (kw : Nat × Nat) : List Nat :=
  match st with
  | [a, b, c, d, e, f, g, h] =>
      let t1 := w32 (h + bigSigma1 e + ch e f g + kw.1 + kw.2)
      let t2 := w32 (bigSigma0 a + maj a b c)
      [w32 (t1 + t2), a, b, c, w32 (d + t1), e, f, g]
  | _ => st

/-- SHA256 compression of one 16-word block into the running state. -/
def sha256Compress (st block : List Nat) : List Nat :=
  let w := extendSchedule block
  let st2 := (sha256K.zip w).foldl sha256Round st
  List.zipWith (fun x y => w32 (x + y)) st st2

/-- Run the compression over every 16-word block of the padded message. -/
def sha256Words (ws : List Nat) : List Nat :=
  (List.range (ws.length / 16)).foldl
    (fun st j => sha256Compress st ((ws.drop (16 * j)).take 16)) sha256InitH

/-- The SHA256 digest (32 bytes) of a byte sequence, per FIPS 180-4. -/
def sha256 (msg : List Nat) : List Nat :=
  ((sha256Words (bytesToWordsBE (padMessage msg))).map (toBytesBE 4)).flatten

/-- The target architecture, as the `cfg(target_arch = "x86_64")` split in
lib.rs sees it: either x86_64 or anything else. -/
inductive Arch
  | x86_64
  | other
deriving DecidableEq

/-- `have_sha_extensions` from lib.rs. On x86_64 it returns the result of
the `cpufeatures` probe (modelled as the `probe` argument); on every other
architecture it returns `false` without probing. -/
def have_sha_extensions (arch : Arch) (probe : Bool) : Bool :=
  match arch with
  | .x86_64 => probe
  | .other => false

/-- The `DynamicImpl` enum from lib.rs: the single `Sha2` backend. -/
inductive DynamicImpl
  | Sha2
deriving DecidableEq

/-- `DynamicImpl::best` from lib.rs: on x86_64 it branches on
`have_sha_extensions` but both arms yield `Sha2`; elsewhere it yields
`Sha2` directly. -/
def DynamicImpl.best (arch : Arch) (probe : Bool) : DynamicImpl :=
  match arch with
  | .x86_64 => if have_sha_extensions arch probe then .Sha2 else .Sha2
  | .other => .Sha2

/-- Modelled from the spec: `Sha2CrateImpl` lives in `src/sha2_impl.rs`,
which is not under src/. Per the spec's external-collaborator contract
(§6), its one-shot hash returns the FIPS 180-4 SHA256 digest. -/
def Sha2CrateImpl.hash (input : List Nat) : List Nat := sha256 input

/-- Modelled from the spec: `Sha2CrateImpl::hash_fixed` (src/sha2_impl.rs,
not under src/) returns the same FIPS 180-4 digest as a fixed-size array;
both are modelled as the 32-byte list. -/
def Sha2CrateImpl.hash_fixed (input : List Nat) : List Nat := sha256 input

/-- `Sha256::hash` for `DynamicImpl` from lib.rs: match on the variant and
delegate to the sha2 backend. -/
def DynamicImpl.hash : DynamicImpl → List Nat → List Nat
  | .Sha2, input => Sha2CrateImpl.hash input

/-- `Sha256::hash_fixed` for `DynamicImpl` from lib.rs. -/
def DynamicImpl.hash_fixed : DynamicImpl → List Nat → List Nat
  | .Sha2, input => Sha2CrateImpl.hash_fixed input

/-- Modelled from the spec: the `sha2::Sha256` streaming context wrapped by
`DynamicContext` (created in `src/sha2_impl.rs`, not under src/). Per the
spec contract (§6), the context holds the pending message. -/
abbrev Sha2Context : Type := List Nat

/-- Modelled from the spec: a fresh `sha2::Sha256` context has an empty
pending message. -/
def Sha2Context.new : Sha2Context := ([] : List Nat)

/-- Modelled from the spec: `update` appends bytes to the pending message. -/
def Sha2Context.update (c : Sha2Context) (bytes : List Nat) : Sha2Context :=
  c ++ bytes

/-- Modelled from the spec: `finalize` returns the 32-byte FIPS 180-4
digest of the pending message. -/
def Sha2Context.finalize (c : Sha2Context) : List Nat := sha256 c

/-- The `DynamicContext` enum from lib.rs: a single variant wrapping the
sha2 context. -/
abbrev DynamicContext : Type := Sha2Context

/-- `DynamicContext::new` from lib.rs: match on `DynamicImpl::best` and
construct the sha2 context. -/
def DynamicContext.new (arch : Arch) (probe : Bool) : DynamicContext :=
  match DynamicImpl.best arch probe with
  | .Sha2 => Sha2Context.new

/-- `DynamicContext::update` from lib.rs: delegate to the sha2 context. -/
def DynamicContext.update (c : DynamicContext) (bytes : List Nat) : DynamicContext :=
  Sha2Context.update c bytes

/-- `DynamicContext::finalize` from lib.rs: delegate to the sha2 context. -/
def DynamicContext.finalize (c : DynamicContext) : List Nat :=
  Sha2Context.finalize c

/-- `hash` from lib.rs: one-shot digest via the best implementation. The
architecture and probe result stand for the ambient CPU state read by
`DynamicImpl::best`. -/
def hash (arch : Arch) (probe : Bool) (input : List Nat) : List Nat :=
  (DynamicImpl.best arch probe).hash input

/-- `hash_fixed` from lib.rs: fixed-size digest via the best implementation. -/
def hash_fixed (arch : Arch) (probe : Bool) (input : List Nat) : List Nat :=
  (DynamicImpl.best arch probe).hash_fixed input

/-- `hash32_concat` from lib.rs: a fresh context, two updates, finalize. -/
def hash32_concat (arch : Arch) (probe : Bool) (h1 h2 : List Nat) : List Nat :=
  ((DynamicContext.new arch probe).update h1 |>.update h2).finalize

/-- `HASH_LEN` from lib.rs. -/
def HASH_LEN : Nat := 32

/-- `ZERO_HASHES_MAX_INDEX` from lib.rs. -/
def ZERO_HASHES_MAX_INDEX : Nat := 48

/-- `ZERO_HASHES` from lib.rs: start from `MAX_INDEX + 1` copies of 32 zero
bytes, then for `i` in `0..MAX_INDEX` set entry `i+1` to
`hash32_concat(entry i, entry i)`. -/
def ZERO_HASHES (arch : Arch) (probe : Bool) : List (List Nat) :=
  (List.range ZERO_HASHES_MAX_INDEX).foldl
    (fun hashes i =>
      hashes.set (i + 1) (hash32_concat arch probe (hashes.getD i []) (hashes.getD i [])))
    (List.replicate (ZERO_HASHES_MAX_INDEX + 1) (List.replicate HASH_LEN 0))

/-- The zero-hash sequence as the spec's recurrence states it: entry 0 is
32 zero bytes, entry `i+1` is the digest of entry `i` twice. -/
def zeroHashSpec : Nat → List Nat
  | 0 => List.replicate 32 0
  | n + 1 => sha256 (zeroHashSpec n ++ zeroHashSpec n)

/-- One hex digit character for a value below 16. -/
def hexDigit (n : Nat) : Char :=
  if n < 10 then Char.ofNat (48 + n) else Char.ofNat (87 + n)

/-- Lowercase hex encoding of a byte sequence, two digits per byte. -/
def hexEncode (bs : List Nat) : String :=
  String.mk (bs.flatMap (fun b => [hexDigit (b / 16), hexDigit (b % 16)]))

/-- The 11 ASCII bytes of the string used by the known-answer test. -/
def helloWorldBytes : List Nat := [104, 101, 108, 108, 111, 32, 119, 111, 114, 108, 100]

/-! ### Helper lemmas -/

/-- The selector resolves to `Sha2` for every architecture and probe result. -/
theorem best_eq (arch : Arch) (probe : Bool) :
    DynamicImpl.best arch probe = DynamicImpl.Sha2 := by
  cases arch <;> cases probe <;> rfl

/-- `hash` always computes the FIPS 180-4 digest. -/
theorem hash_eq_sha256 (arch : Arch) (probe : Bool) (b : List Nat) :
    hash arch probe b = sha256 b := by
  cases arch <;> cases probe <;> rfl

/-- `hash_fixed` always computes the FIPS 180-4 digest. -/
theorem hash_fixed_eq_sha256 (arch : Arch) (probe : Bool) (b : List Nat) :
    hash_fixed arch probe b = sha256 b := by
  cases arch <;> cases probe <;> rfl

/-- A fresh context has an empty pending message. -/
theorem dynamicContext_new_eq (arch : Arch) (probe : Bool) :
    DynamicContext.new arch probe = ([] : List Nat) := by
  cases arch <;> cases probe <;> rfl

/-- `hash32_concat` computes the digest of the concatenation. -/
theorem hash32_concat_eq_sha256 (arch : Arch) (probe : Bool) (h1 h2 : List Nat) :
    hash32_concat arch probe h1 h2 = sha256 (h1 ++ h2) := by
  cases arch <;> cases probe <;> rfl

/-- Folding `update` over a chunk list appends the flattened chunks to the
pending message. -/
theorem foldl_update_eq (chunks : List (List Nat)) :
    ∀ c : Sha2Context, chunks.foldl DynamicContext.update c = c ++ chunks.flatten := by
  induction chunks with
  | nil => intro c; simp
  | cons x xs ih =>
      intro c
      simp [DynamicContext.update, Sha2Context.update, ih (c ++ x)]

/-! ### Claims -/

/-- C5: for every capability-detector result on every architecture,
`DynamicImpl::best` resolves to the single `Sha2` backend, and `hash`,
`hash_fixed` and fresh contexts all delegate to that same backend. -/
theorem best_always_sha2 (arch : Arch) (probe : Bool) (b : List Nat) :
    DynamicImpl.best arch probe = DynamicImpl.Sha2
    ∧ hash arch probe b = Sha2CrateImpl.hash b
    ∧ hash_fixed arch probe b = Sha2CrateImpl.hash_fixed b
    ∧ DynamicContext.new arch probe = Sha2Context.new := by
  refine ⟨best_eq arch probe, ?_, ?_, ?_⟩ <;> cases arch <;> cases probe <;> rfl

/-- C8: on every architecture other than x86_64, `have_sha_extensions`
returns `false` regardless of what a probe would have said. -/
theorem have_sha_extensions_other_false (probe : Bool) :
    have_sha_extensions Arch.other probe = false := rfl

/-- C9: hashing is deterministic — the digest depends only on the input
bytes, not on the detector state, so two invocations of `hash` (and of
`hash_fixed`) on the same bytes agree. -/
theorem hash_deterministic (b : List Nat) (a1 a2 : Arch) (p1 p2 : Bool) :
    hash a1 p1 b = hash a2 p2 b ∧ hash_fixed a1 p1 b = hash_fixed a2 p2 b := by
  rw [hash_eq_sha256, hash_eq_sha256, hash_fixed_eq_sha256, hash_fixed_eq_sha256]
  exact ⟨rfl, rfl⟩

/-- C6: `hash` and `hash_fixed` return the same 32 bytes on every input. -/
theorem hash_eq_hash_fixed (arch : Arch) (probe : Bool) (b : List Nat) :
    hash arch probe b = hash_fixed arch probe b := by
  rw [hash_eq_sha256, hash_fixed_eq_sha256]

/-- C2: `hash32_concat h1 h2` equals the one-shot digest of `h1 ++ h2`,
both as `hash_fixed` and, as bytes, as `hash`. -/
theorem hash32_concat_spec (arch : Arch) (probe : Bool) (h1 h2 : List Nat) :
    hash32_concat arch probe h1 h2 = hash_fixed arch probe (h1 ++ h2)
    ∧ hash32_concat arch probe h1 h2 = hash arch probe (h1 ++ h2) := by
  rw [hash32_concat_eq_sha256, hash_fixed_eq_sha256, hash_eq_sha256]
  exact ⟨rfl, rfl⟩

/-- C3: for every chunk list (hence every partition of a byte sequence,
empty chunks included), a fresh context updated with each chunk in order
and then finalized yields the one-shot `hash` of the concatenation. -/
theorem streaming_eq_hash (arch : Arch) (probe : Bool) (chunks : List (List Nat)) :
    DynamicContext.finalize (chunks.foldl DynamicContext.update (DynamicContext.new arch probe))
      = hash arch probe chunks.flatten := by
  rw [dynamicContext_new_eq, foldl_update_eq, hash_eq_sha256]
  simp [DynamicContext.finalize, Sha2Context.finalize]

/-- Loop invariant for the `ZERO_HASHES` construction: after the first `k`
iterations the first `k + 1` entries follow the recurrence and the rest
are still the initial zero fill. -/
theorem zero_hashes_foldl (arch : Arch) (probe : Bool) :
    ∀ k, k ≤ 48 →
      (List.range k).foldl
        (fun hashes i =>
          hashes.set (i + 1) (hash32_concat arch probe (hashes.getD i []) (hashes.getD i [])))
        (List.replicate 49 (List.replicate 32 0))
      = (List.range (k + 1)).map zeroHashSpec
          ++ List.replicate (48 - k) (List.replicate 32 0) := by
  intro k
  induction k with
  | zero =>
      intro _
      rfl
  | succ k ih =>
      intro hk
      rw [List.range_succ, List.foldl_append, ih (by omega)]
      simp only [List.foldl_cons, List.foldl_nil]
      have hlen : ((List.range (k + 1)).map zeroHashSpec).length = k + 1 := by simp
      have hget :
          (((List.range (k + 1)).map zeroHashSpec)
            ++ List.replicate (48 - k) (List.replicate 32 0)).getD k [] = zeroHashSpec k := by
        rw [List.getD_append _ _ _ _ (by rw [hlen]; omega),
            List.getD_eq_getElem _ _ (by rw [hlen]; omega)]
        simp
      rw [hget, hash32_concat_eq_sha256]
      rw [List.set_append_right _ _ (by rw [hlen]), hlen]
      have h48 : 48 - k = (47 - k) + 1 := by omega
      rw [h48, List.replicate_succ]
      simp only [Nat.sub_self, List.set_cons_zero]
      have hr : List.range (k + 1 + 1) = List.range (k + 1) ++ [k + 1] := List.range_succ (k + 1)
      rw [hr, List.map_append]
      have h47 : 48 - (k + 1) = 47 - k := by omega
      rw [h47]
      simp [zeroHashSpec, List.append_assoc]

/-- The built table is exactly the first 49 values of the recursive
zero-hash sequence. -/
theorem zero_hashes_eq (arch : Arch) (probe : Bool) :
    ZERO_HASHES arch probe = (List.range 49).map zeroHashSpec := by
  have h := zero_hashes_foldl arch probe 48 (Nat.le_refl 48)
  simpa [ZERO_HASHES, ZERO_HASHES_MAX_INDEX, HASH_LEN] using h

/-- In-range `getD` lookup into the table gives the recursive sequence. -/
theorem zh_getD (arch : Arch) (probe : Bool) (i : Nat) (hi : i ≤ 48) :
    (ZERO_HASHES arch probe).getD i [] = zeroHashSpec i := by
  rw [zero_hashes_eq]
  rw [List.getD_eq_getElem _ _ (by simp; omega)]
  simp

/-- In-range optional lookup into the table gives the recursive sequence. -/
theorem zh_getElem? (arch : Arch) (probe : Bool) (i : Nat) (hi : i ≤ 48) :
    (ZERO_HASHES arch probe)[i]? = some (zeroHashSpec i) := by
  rw [zero_hashes_eq]
  rw [List.getElem?_eq_getElem (by simp; omega)]
  simp

/-- C1: the zero-hash table equals the recursively defined sequence —
entry 0 is exactly 32 zero bytes, entry `i+1` for every `i` in `0..48` is
the SHA256 digest of entry `i` concatenated with entry `i`, and the table
has no entries beyond index 48 (its length is 49). -/
theorem zero_hash_table_recurrence (arch : Arch) (probe : Bool) :
    (ZERO_HASHES arch probe).length = 49
    ∧ (ZERO_HASHES arch probe)[0]? = some (List.replicate 32 0)
    ∧ ∀ i, i < 48 →
        (ZERO_HASHES arch probe)[i + 1]?
          = some (sha256 ((ZERO_HASHES arch probe).getD i []
                          ++ (ZERO_HASHES arch probe).getD i [])) := by
  refine ⟨?_, ?_, ?_⟩
  · rw [zero_hashes_eq]; simp
  · rw [zh_getElem? arch probe 0 (by omega)]; rfl
  · intro i hi
    rw [zh_getElem? arch probe (i + 1) (by omega), zh_getD arch probe i (by omega)]
    rfl

/-- Witness for C1: the recurrence at index 0 on a concrete architecture. -/
theorem zero_hash_table_recurrence_witness :
    (ZERO_HASHES Arch.other false)[0 + 1]?
      = some (sha256 ((ZERO_HASHES Arch.other false).getD 0 []
                      ++ (ZERO_HASHES Arch.other false).getD 0 [])) :=
  (zero_hash_table_recurrence Arch.other false).2.2 0 (by decide)

/-- C7: zero-hash lookup succeeds for every index in `0..=48` (the table
holds exactly 49 entries) and lookup at index 49 returns `none` — the
out-of-bounds branch — rather than a default digest. -/
theorem zero_hash_lookup_bounds (arch : Arch) (probe : Bool) :
    (ZERO_HASHES arch probe).length = 49
    ∧ (∀ i, i ≤ 48 → ((ZERO_HASHES arch probe)[i]?).isSome = true)
    ∧ (ZERO_HASHES arch probe)[49]? = none := by
  refine ⟨?_, ?_, ?_⟩
  · rw [zero_hashes_eq]; simp
  · intro i hi; rw [zh_getElem? arch probe i hi]; rfl
  · rw [zero_hashes_eq]
    apply List.getElem?_eq_none
    simp

/-- Witness for C7: lookup at 48 succeeds and lookup at 49 fails, on a
concrete architecture. -/
theorem zero_hash_lookup_bounds_witness :
    ((ZERO_HASHES Arch.other false)[48]?).isSome = true
    ∧ (ZERO_HASHES Arch.other false)[49]? = none :=
  ⟨(zero_hash_lookup_bounds Arch.other false).2.1 48 (by decide),
   (zero_hash_lookup_bounds Arch.other false).2.2⟩

/-- Counterexample for C4: the digest of the 11 ASCII bytes of
"hello world" does not hex-encode to the spec's 63-character string
(the string is missing the final hex digit `9`). -/
theorem known_answer_hex_false :
    hexEncode (hash Arch.other false helloWorldBytes)
      ≠ "b94d27b9934d3e08a52e52d7da7dabfac484efe37a5380ee9088f7ace2efcde" := by
  decide

/-- C4 (amended): hashing the 11 ASCII bytes of "hello world" yields the
digest whose hex encoding is the 64-character string
b94d27b9934d3e08a52e52d7da7dabfac484efe37a5380ee9088f7ace2efcde9, matching
the 64-character vector in the crate's own test. -/
theorem known_answer_hex (arch : Arch) (probe : Bool) :
    hexEncode (hash arch probe helloWorldBytes)
      = "b94d27b9934d3e08a52e52d7da7dabfac484efe37a5380ee9088f7ace2efcde9"
    ∧ (hexEncode (hash arch probe helloWorldBytes)).length = 64 := by
  rw [hash_eq_sha256]
  have h : hexEncode (sha256 helloWorldBytes)
      = "b94d27b9934d3e08a52e52d7da7dabfac484efe37a5380ee9088f7ace2efcde9" := by decide
  exact ⟨h, by rw [h]; rfl⟩
